import Mathlib

/-!
Verification development for the TheTragedyAI repository.

Part 1 models the SQL store schema (`supabase_schema.sql`): tables, columns,
the single secondary index, and the row-level-security policies.

Part 2 embeds the pure computational cores of the dashboard components
(`dashboard/src/components`): the hypothesis widget's guard/verdict logic and
the survival chart's per-density aggregation.

Part 3 models the generation/queue coordination protocol (Controller, Worker
Agent, Stale-Job Reaper).  The Python sources implementing that protocol
(`simulation/ai/evolve.py`, `simulation/main.py`) are not part of the
repository snapshot; those operations are modelled from the specification,
as stated in their doc comments.
-/

namespace TragedyAI

/-! ### Part 1: SQL schema model (from `supabase_schema.sql`) -/

/-- Sort direction of an index column (`asc` is SQL's default, `desc` is written
explicitly in the schema). -/
inductive SortDir
  | asc
  | desc
deriving DecidableEq

/-- SQL commands a row-level-security policy can grant to the public role. -/
inductive SqlCmd
  | cmdSelect
  | cmdInsert
  | cmdUpdate
  | cmdDelete
deriving DecidableEq

/-- Name and column list of one SQL table. -/
structure SqlTable where
  name : String
  columns : List String
deriving DecidableEq

/-- One secondary index: its name, the table it is on, and its column list with
sort directions. -/
structure SqlIndex where
  name : String
  table : String
  columns : List (String × SortDir)
deriving DecidableEq

/-- One row-level-security policy: the table it is on and the command it grants. -/
structure SqlPolicy where
  table : String
  cmd : SqlCmd
deriving DecidableEq

/-- Table 4 of `supabase_schema.sql`: `simulation_generations`. -/
def simulation_generations : SqlTable :=
  ⟨"simulation_generations", ["id", "created_at", "status", "avg_fitness", "best_fitness"]⟩

/-- Table 5 of `supabase_schema.sql`: `simulation_genomes`. -/
def simulation_genomes : SqlTable :=
  ⟨"simulation_genomes",
   ["id", "generation_id", "weights", "fitness_score", "is_elite", "created_at"]⟩

/-- Table 6 of `supabase_schema.sql`: `simulation_queue`. -/
def simulation_queue : SqlTable :=
  ⟨"simulation_queue",
   ["id", "created_at", "status", "assigned_to", "started_at", "completed_at",
    "genome_id", "params"]⟩

/-- The index `idx_genomes_gen_id_fitness` of `supabase_schema.sql`:
`on simulation_genomes (generation_id, fitness_score desc)`. -/
def idx_genomes_gen_id_fitness : SqlIndex :=
  ⟨"idx_genomes_gen_id_fitness", "simulation_genomes",
   [("generation_id", SortDir.asc), ("fitness_score", SortDir.desc)]⟩

/-- Every `create index` statement of `supabase_schema.sql` (primary-key
indexes are implicit per table and not listed here). -/
def schemaIndexes : List SqlIndex := [idx_genomes_gen_id_fitness]

/-- Every `create policy` statement of `supabase_schema.sql`, in file order. -/
def schemaPolicies : List SqlPolicy :=
  [⟨"simulation_batch_runs", SqlCmd.cmdSelect⟩,
   ⟨"simulation_batch_runs", SqlCmd.cmdInsert⟩,
   ⟨"simulation_time_series", SqlCmd.cmdSelect⟩,
   ⟨"simulation_time_series", SqlCmd.cmdInsert⟩,
   ⟨"human_matches", SqlCmd.cmdSelect⟩,
   ⟨"human_matches", SqlCmd.cmdInsert⟩,
   ⟨"simulation_generations", SqlCmd.cmdSelect⟩,
   ⟨"simulation_generations", SqlCmd.cmdInsert⟩,
   ⟨"simulation_genomes", SqlCmd.cmdSelect⟩,
   ⟨"simulation_genomes", SqlCmd.cmdInsert⟩,
   ⟨"simulation_queue", SqlCmd.cmdSelect⟩,
   ⟨"simulation_queue", SqlCmd.cmdInsert⟩,
   ⟨"simulation_queue", SqlCmd.cmdUpdate⟩]

/-- Commands the public role is granted on a table by the schema's policies. -/
def allowedCmds (t : String) : List SqlCmd :=
  (schemaPolicies.filter (fun p => p.table = t)).map SqlPolicy.cmd

/-! ### Part 2: dashboard component cores

`SimulationBatchRun` rows (from `dashboard/src/components/supabase.ts`) carry a
float `resource_density`, modelled as `ℚ`, and an int `total_ticks_survived`,
modelled as `ℤ`. -/

/-- Fields of a `simulation_batch_runs` row used by the dashboard components. -/
structure SimulationBatchRun where
  machine_id : String
  agent_strategy : String
  resource_density : ℚ
  total_ticks_survived : ℤ
deriving DecidableEq

/-- Character-list version of a leading-segment test, auxiliary to `strIncludes`. -/
def charsLead : List Char → List Char → Bool
  | [], _ => true
  | _ :: _, [] => false
  | p :: ps, c :: cs => p == c && charsLead ps cs

/-- Character-list contiguous-substring test, auxiliary to `strIncludes`. -/
def charsSeg (pat : List Char) : List Char → Bool
  | [] => pat.isEmpty
  | c :: cs => charsLead pat (c :: cs) || charsSeg pat cs

/-- JavaScript's `String.prototype.includes`: `pat` occurs contiguously in `s`. -/
def strIncludes (s pat : String) : Bool :=
  charsSeg pat.toList s.toList

/-- Status record produced by `HypothesisWidget.calculateHypothesis`. -/
structure HypothesisStatus where
  confirmed : Option Bool
  pValue : Option ℚ
  message : String
  threshold : ℚ
deriving DecidableEq

/-- Runs with `resource_density < 0.20`, the widget's low-density filter. -/
def lowDensityRuns (runs : List SimulationBatchRun) : List SimulationBatchRun :=
  runs.filter (fun r => decide (r.resource_density < 20 / 100))

/-- Survival times of low-density runs whose strategy includes "Cooperative". -/
def coopTicks (runs : List SimulationBatchRun) : List ℚ :=
  ((lowDensityRuns runs).filter
      (fun r => strIncludes r.agent_strategy "Cooperative")).map
    (fun r => (r.total_ticks_survived : ℚ))

/-- Survival times of low-density runs whose strategy includes "Aggressive". -/
def aggTicks (runs : List SimulationBatchRun) : List ℚ :=
  ((lowDensityRuns runs).filter
      (fun r => strIncludes r.agent_strategy "Aggressive")).map
    (fun r => (r.total_ticks_survived : ℚ))

/-- Arithmetic mean, as computed by the widget (`sum / length`). -/
def mean (xs : List ℚ) : ℚ := xs.sum / (xs.length : ℚ)

/-- Sample variance with Bessel's correction, as computed by the widget. -/
def sampleVar (xs : List ℚ) : ℚ :=
  (xs.map (fun x => (x - mean xs) ^ 2)).sum / ((xs.length : ℚ) - 1)

/-- Welch t-statistic of the widget.  The square root has no exact rational
value, so it is passed in as the abstract function `sqrtQ`. -/
def tStat (sqrtQ : ℚ → ℚ) (runs : List SimulationBatchRun) : ℚ :=
  (mean (coopTicks runs) - mean (aggTicks runs)) /
    sqrtQ (sampleVar (coopTicks runs) / ((coopTicks runs).length : ℚ) +
      sampleVar (aggTicks runs) / ((aggTicks runs).length : ℚ))

/-- Two-tailed p-value approximation of the widget, with the normal CDF
(which involves `erf` and `exp`) passed in as the abstract `normalCDF`. -/
def pValueOf (normalCDF sqrtQ : ℚ → ℚ) (runs : List SimulationBatchRun) : ℚ :=
  2 * (1 - normalCDF |tStat sqrtQ runs|)

/-- Status the widget sets when fewer than 10 runs per strategy are available. -/
def insufficientStatus : HypothesisStatus :=
  ⟨none, none, "Insufficient data. Need at least 10 runs per strategy.", 5 / 100⟩

/-- Pure core of `HypothesisWidget.calculateHypothesis`.  The numeric text
interpolated into the third message by the source is abstracted away; the
branch structure, the guard, and the verdict are as in the source. -/
def calculateHypothesis (normalCDF sqrtQ : ℚ → ℚ)
    (runs : List SimulationBatchRun) : HypothesisStatus :=
  if (coopTicks runs).length < 10 ∨ (aggTicks runs).length < 10 then
    insufficientStatus
  else
    let p := pValueOf normalCDF sqrtQ runs
    let ok := decide (p < 5 / 100 ∧ mean (coopTicks runs) > mean (aggTicks runs))
    { confirmed := some ok
      pValue := some p
      message :=
        if ok then
          "Hypothesis CONFIRMED: Cooperative strategy shows significantly higher survival (p < 0.05)"
        else if p < 5 / 100 then
          "Hypothesis REFUTED: No significant difference or opposite effect (p < 0.05)"
        else
          "Insufficient evidence (need p < 0.05)"
      threshold := 5 / 100 }

/-- One row of the survival chart: density (as a percentage) and the average
survival per strategy, `none` when the strategy has no runs in the group. -/
structure ChartData where
  density : ℚ
  cooperative : Option ℚ
  aggressive : Option ℚ
deriving DecidableEq

/-- Route one run's survival time into a `(cooperative, aggressive)` pair of
lists, as `SurvivalChart.fetchData` does (a strategy containing neither
keyword contributes to neither list). -/
def pushRun (entry : List ℤ × List ℤ) (run : SimulationBatchRun) : List ℤ × List ℤ :=
  if strIncludes run.agent_strategy "Cooperative" then
    (entry.1 ++ [run.total_ticks_survived], entry.2)
  else if strIncludes run.agent_strategy "Aggressive" then
    (entry.1, entry.2 ++ [run.total_ticks_survived])
  else
    entry

/-- Add one run to the density-keyed groups, creating the group on first sight
of its density (insertion order preserved, as for JS object keys). -/
def insertRun : List (ℚ × List ℤ × List ℤ) → SimulationBatchRun →
    List (ℚ × List ℤ × List ℤ)
  | [], run => [(run.resource_density, pushRun ([], []) run)]
  | (d, e) :: rest, run =>
    if d = run.resource_density then
      (d, pushRun e run) :: rest
    else
      (d, e) :: insertRun rest run

/-- Group the runs by resource density, as `SurvivalChart.fetchData` does. -/
def groupRuns (runs : List SimulationBatchRun) : List (ℚ × List ℤ × List ℤ) :=
  runs.foldl insertRun []

/-- Average of a group's list, or `none` when the list is empty — the
`length > 0 ? sum / length : null` step of the chart. -/
def avgOrNone (xs : List ℤ) : Option ℚ :=
  if 0 < xs.length then some ((xs.map (fun x => (x : ℚ))).sum / (xs.length : ℚ))
  else none

/-- Turn one density group into a chart row (density scaled to a percentage). -/
def toChart (g : ℚ × List ℤ × List ℤ) : ChartData :=
  ⟨g.1 * 100, avgOrNone g.2.1, avgOrNone g.2.2⟩

/-- Pure core of `SurvivalChart.fetchData`: group, order by density, average.
(The source sorts the keys with JS's default string sort; the order of the
rows is irrelevant to their contents and is modelled as the numeric order.) -/
def survivalChartData (runs : List SimulationBatchRun) : List ChartData :=
  ((groupRuns runs).mergeSort (fun a b => decide (a.1 ≤ b.1))).map toChart

/-! ### Part 3: the generation/queue coordination protocol

The Python sources implementing the Evolution Controller, Worker Agent and
Stale-Job Reaper (`simulation/ai/evolve.py`, `simulation/main.py`) are not in
the repository snapshot; every operation below is modelled from the
specification.  Timestamps are modelled as `ℕ`, fitness scores as `ℚ`,
genome/job identifiers as `ℕ` (UUIDs in the store), weight blobs as `List ℚ`
(opaque to the protocol). -/

/-- Status column of a `simulation_generations` row. -/
inductive GenStatus
  | active
  | completed
deriving DecidableEq

/-- Status column of a `simulation_queue` row. -/
inductive JobStatus
  | pending
  | processing
  | completed
  | failed
deriving DecidableEq

/-- One `simulation_generations` row. -/
structure Generation where
  id : ℕ
  status : GenStatus
  avg_fitness : Option ℚ
  best_fitness : Option ℚ
deriving DecidableEq

/-- One `simulation_genomes` row. -/
structure Genome where
  id : ℕ
  generation_id : ℕ
  weights : List ℚ
  fitness_score : Option ℚ
  is_elite : Bool
deriving DecidableEq

/-- One `simulation_queue` row. -/
structure Job where
  id : ℕ
  genome_id : ℕ
  status : JobStatus
  assigned_to : Option String
  started_at : Option ℕ
  completed_at : Option ℕ
  attempts : ℕ
deriving DecidableEq

/-- The durable store: the three record lists the protocol coordinates on. -/
structure Store where
  generations : List Generation
  genomes : List Genome
  jobs : List Job
deriving DecidableEq

/-- Modelled from the spec (§4.2 step 2, the Worker Agent's claim; source
`simulation/main.py` is missing): the per-row conditional update of a claim —
a row still `pending` with the claimed id becomes `processing` with
`assigned_to` and `started_at` set in the same update; any other row is left
unchanged. -/
def claimUpdate (worker : String) (now jobId : ℕ) (j : Job) : Job :=
  if j.id = jobId ∧ j.status = JobStatus.pending then
    { j with status := JobStatus.processing
             assigned_to := some worker
             started_at := some now }
  else j

/-- Modelled from the spec (§4.2 step 2; source `simulation/main.py` is
missing): an atomic compare-and-swap claim attempt.  It returns the updated
store and whether the attempt succeeded, i.e. whether a `pending` row with the
claimed id existed at update time. -/
def claimJob (worker : String) (now jobId : ℕ) (s : Store) : Store × Bool :=
  ({ s with jobs := s.jobs.map (claimUpdate worker now jobId) },
   s.jobs.any (fun j => decide (j.id = jobId ∧ j.status = JobStatus.pending)))

/-- Sequentialisation of N concurrent claim attempts on one job: since each
attempt is a single atomic conditional update, any concurrent execution is
equivalent to some sequential order of the attempts.  Returns the final store
and the number of successful attempts. -/
def claimAll (now jobId : ℕ) : List String → Store → Store × ℕ
  | [], s => (s, 0)
  | w :: ws, s =>
    let r := claimJob w now jobId s
    let rest := claimAll now jobId ws r.1
    (rest.1, (if r.2 then 1 else 0) + rest.2)

/-- Outcome of a fitness report: first write accepted, identical duplicate
accepted as a no-op, conflicting value rejected as a data-integrity error. -/
inductive ReportOutcome
  | written
  | duplicate
  | conflict
deriving DecidableEq

/-- Modelled from the spec (§4.2 step 3 and §3 Genome invariant; source
`simulation/ai/evolve.py` is missing): write a genome's fitness only when it
is still unset. -/
def setFitness (genomeId : ℕ) (score : ℚ) (g : Genome) : Genome :=
  if g.id = genomeId ∧ g.fitness_score = none then
    { g with fitness_score := some score }
  else g

/-- Modelled from the spec (§4.2 step 3, write-once fitness; sources
`simulation/ai/evolve.py` / `simulation/main.py` are missing): accept a
fitness report.  An unset score is written; a repeated identical value is an
accepted no-op; a different value — or a report for an unknown genome — is
rejected and the store is unchanged. -/
def acceptReport (genomeId : ℕ) (score : ℚ) (s : Store) : Store × ReportOutcome :=
  match s.genomes.find? (fun g => decide (g.id = genomeId)) with
  | none => (s, ReportOutcome.conflict)
  | some g =>
    match g.fitness_score with
    | none =>
      ({ s with genomes := s.genomes.map (setFitness genomeId score) },
       ReportOutcome.written)
    | some v =>
      if v = score then (s, ReportOutcome.duplicate) else (s, ReportOutcome.conflict)

/-- Modelled from the spec (§4.2 step 3; source `simulation/main.py` is
missing): mark one `processing` job `completed` with `completed_at = now`. -/
def completeJob (now jobId : ℕ) (s : Store) : Store :=
  { s with
    jobs := s.jobs.map (fun j =>
      if j.id = jobId ∧ j.status = JobStatus.processing then
        { j with status := JobStatus.completed, completed_at := some now }
      else j) }

/-- Modelled from the spec (§4.2 step 3; source `simulation/main.py` is
missing): mark one `processing` job `failed` on evaluator failure. -/
def failJob (jobId : ℕ) (s : Store) : Store :=
  { s with
    jobs := s.jobs.map (fun j =>
      if j.id = jobId ∧ j.status = JobStatus.processing then
        { j with status := JobStatus.failed }
      else j) }

/-- Whether a `processing` job's `started_at` is older than the staleness
timeout at time `now`. -/
def isStale (now timeout : ℕ) (j : Job) : Bool :=
  match j.started_at with
  | some t => decide (t + timeout < now)
  | none => false

/-- Modelled from the spec (§4.3, the Stale-Job Reaper; source
`simulation/ai/evolve.py` is missing): the per-row reap update.  A stale
`processing` row under its attempt budget goes back to `pending` with
`assigned_to`/`started_at` cleared and its attempt counter incremented; one
whose budget is exhausted is marked `failed` instead; all other rows are
untouched. -/
def reapUpdate (now timeout budget : ℕ) (j : Job) : Job :=
  if j.status = JobStatus.processing ∧ isStale now timeout j = true then
    if j.attempts + 1 < budget then
      { j with status := JobStatus.pending
               assigned_to := none
               started_at := none
               attempts := j.attempts + 1 }
    else
      { j with status := JobStatus.failed }
  else j

/-- Modelled from the spec (§4.3; source `simulation/ai/evolve.py` is
missing): one reaper sweep over the queue. -/
def reapJobs (now timeout budget : ℕ) (s : Store) : Store :=
  { s with jobs := s.jobs.map (reapUpdate now timeout budget) }

/-- Comparator of the selection ranking (§4.1 step 4): fitness descending,
ties broken by genome id ascending.  Arguments are genomes paired with their
(known) fitness scores. -/
def eliteLE (a b : Genome × ℚ) : Bool :=
  decide (b.2 < a.2 ∨ (a.2 = b.2 ∧ a.1.id ≤ b.1.id))

/-- Modelled from the spec (§4.1 step 4; source `simulation/ai/evolve.py` is
missing): rank the scored genomes of a completed generation. -/
def rankGenomes (gs : List (Genome × ℚ)) : List (Genome × ℚ) :=
  gs.mergeSort eliteLE

/-- Modelled from the spec (§4.1 step 4; source `simulation/ai/evolve.py` is
missing): the elite set — the top `K` of the ranking. -/
def selectElites (K : ℕ) (gs : List (Genome × ℚ)) : List (Genome × ℚ) :=
  (rankGenomes gs).take K

/-- Genomes of generation `genId` that carry a fitness score, paired with it
(genomes whose job failed permanently have no score and are excluded). -/
def scoredGenomes (genId : ℕ) (s : Store) : List (Genome × ℚ) :=
  s.genomes.filterMap (fun g =>
    match g.fitness_score with
    | some v => if g.generation_id = genId then some (g, v) else none
    | none => none)

/-- Id of the active generation (0 when none exists). -/
def activeGenId (s : Store) : ℕ :=
  ((s.generations.find? (fun g => decide (g.status = GenStatus.active))).map
    Generation.id).getD 0

/-- Modelled from the spec (§4.1 step 4; source `simulation/ai/evolve.py` is
missing): an elite is copied unchanged into generation `gen`, marked
`is_elite` with its fitness reset to `null`.  Its fresh store id is supplied
by the caller (a new UUID in the store). -/
def eliteCopy (gen newId : ℕ) (g : Genome) : Genome :=
  { g with id := newId
           generation_id := gen
           fitness_score := none
           is_elite := true }

/-- Modelled from the spec (§4.1 step 6; source `simulation/ai/evolve.py` is
missing): one fresh `pending` job per newly inserted genome. -/
def freshJobs (base : ℕ) (gs : List Genome) : List Job :=
  gs.enum.map (fun p => ⟨base + p.1, p.2.id, JobStatus.pending, none, none, none, 0⟩)

/-- Modelled from the spec (§4.1 `--init`; source `simulation/ai/evolve.py` is
missing): bootstrap Generation 0 as `active` with `pop` randomly initialised
genomes (randomness abstracted as the supplied `weightsOf`) and one pending
job per genome. -/
def initStore (pop : ℕ) (weightsOf : ℕ → List ℚ) : Store :=
  let gs := (List.range pop).map (fun i => (⟨i, 0, weightsOf i, none, false⟩ : Genome))
  { generations := [⟨0, GenStatus.active, none, none⟩]
    genomes := gs
    jobs := freshJobs 0 gs }

/-- Modelled from the spec (§4.1 steps 3–6; source `simulation/ai/evolve.py`
is missing): complete an `active` generation row, writing its fitness stats. -/
def completeGeneration (avg best : Option ℚ) (g : Generation) : Generation :=
  if g.status = GenStatus.active then
    { g with status := GenStatus.completed, avg_fitness := avg, best_fitness := best }
  else g

/-- Modelled from the spec (§4.1 steps 3–6; source `simulation/ai/evolve.py`
is missing): the generation advance.  The active generation is marked
`completed` with its fitness stats; a new generation with the next serial id
(modelled as the count of existing generations) is created `active`; the
top-`K` elites are copied into it (with fresh ids `eliteBase, eliteBase+1, …`)
alongside the `offspring` produced by the unspecified variation policy; one
pending job is created per new genome.  No row is ever removed. -/
def advanceStore (K : ℕ) (offspring : List Genome) (avg best : Option ℚ)
    (eliteBase jobBase : ℕ) (s : Store) : Store :=
  let n := s.generations.length
  let elites :=
    ((selectElites K (scoredGenomes (activeGenId s) s)).enum).map
      (fun p => eliteCopy n (eliteBase + p.1) p.2.1)
  let newGenomes := elites ++ offspring
  { generations := s.generations.map (completeGeneration avg best) ++
      [⟨n, GenStatus.active, none, none⟩]
    genomes := s.genomes ++ newGenomes
    jobs := s.jobs ++ freshJobs jobBase newGenomes }

/-- Generation of the genome a job points at, when that genome exists. -/
def jobGeneration (s : Store) (j : Job) : Option ℕ :=
  (s.genomes.find? (fun g => decide (g.id = j.genome_id))).map Genome.generation_id

/-- Readiness condition of the advance loop (§4.1 step 3): every job of the
active generation is terminal. -/
def allActiveJobsTerminal (s : Store) : Prop :=
  ∀ j ∈ s.jobs, jobGeneration s j = some (activeGenId s) →
    j.status = JobStatus.completed ∨ j.status = JobStatus.failed

/-- One protocol step: any Worker, Controller or Reaper operation, with the
spec's enabling conditions on the advance (§4.1: all jobs terminal, and at
least one scored genome — a generation with zero valid scores is fatal and
halts the Controller instead of advancing). -/
inductive Step : Store → Store → Prop
  | claim (w : String) (now jobId : ℕ) (s : Store) :
      Step s (claimJob w now jobId s).1
  | report (genomeId : ℕ) (score : ℚ) (s : Store) :
      Step s (acceptReport genomeId score s).1
  | complete (now jobId : ℕ) (s : Store) :
      Step s (completeJob now jobId s)
  | evalFailed (jobId : ℕ) (s : Store) :
      Step s (failJob jobId s)
  | reap (now timeout budget : ℕ) (s : Store) :
      Step s (reapJobs now timeout budget s)
  | advance (K : ℕ) (offspring : List Genome) (avg best : Option ℚ)
      (eliteBase jobBase : ℕ) (s : Store)
      (hready : allActiveJobsTerminal s)
      (hviable : scoredGenomes (activeGenId s) s ≠ []) :
      Step s (advanceStore K offspring avg best eliteBase jobBase s)

/-- States reachable from a successful `--init` through protocol steps. -/
def Reachable (pop : ℕ) (weightsOf : ℕ → List ℚ) (s : Store) : Prop :=
  Relation.ReflTransGen Step (initStore pop weightsOf) s

/-- Projection of the generation list onto the data the frontier invariant
speaks about: ids and statuses, in store order. -/
def genTrace (gens : List Generation) : List (ℕ × GenStatus) :=
  gens.map (fun g => (g.id, g.status))

/-- Frontier invariant on the generation list: the rows are generations
0, 1, …, n in order, all `completed` except the last one, which is `active`. -/
def GoodGens (gens : List Generation) : Prop :=
  ∃ n, genTrace gens =
    (List.range n).map (fun i => (i, GenStatus.completed)) ++ [(n, GenStatus.active)]

/-! ### Helper lemmas -/

theorem setFitness_id (gid : ℕ) (sc : ℚ) (g : Genome) :
    (setFitness gid sc g).id = g.id := by
  unfold setFitness; split <;> rfl

theorem completeGeneration_id (avg best : Option ℚ) (g : Generation) :
    (completeGeneration avg best g).id = g.id := by
  unfold completeGeneration; split <;> rfl

theorem acceptReport_generations (gid : ℕ) (sc : ℚ) (s : Store) :
    (acceptReport gid sc s).1.generations = s.generations := by
  unfold acceptReport
  split
  · rfl
  · split
    · rfl
    · split <;> rfl

theorem acceptReport_genome_ids (gid : ℕ) (sc : ℚ) (s : Store) :
    ∀ x ∈ s.genomes, ∃ x' ∈ (acceptReport gid sc s).1.genomes, x'.id = x.id := by
  intro x hx
  unfold acceptReport
  split
  · exact ⟨x, hx, rfl⟩
  · split
    · exact ⟨setFitness gid sc x, List.mem_map_of_mem _ hx, setFitness_id gid sc x⟩
    · split
      · exact ⟨x, hx, rfl⟩
      · exact ⟨x, hx, rfl⟩

/-! ### Claim C7 -/

/-- C7 counterexample: the claim fails on the schema as stated — the
`simulation_queue` table has no column for the owning generation (jobs point at
a genome only), and the schema creates no secondary index on the queue at all,
so "pending Jobs for the active Generation" is not a lookup the Job records
support directly, let alone an indexed one. -/
theorem queue_has_no_generation_column :
    "generation_id" ∉ simulation_queue.columns ∧
    schemaIndexes.filter (fun i => i.table = "simulation_queue") = [] := by
  decide

/-- C7 (amended): the Genome records carry the index
`idx_genomes_gen_id_fitness` on `(generation_id, fitness_score desc)`, so
"Genomes for a Generation ordered by fitness descending" is an indexed lookup;
the Job records carry `status` and `genome_id` columns, so pending Jobs reach
their owning generation only by joining through the genome's `generation_id` —
the queue table itself has neither a generation column nor any secondary
index. -/
theorem store_schema_lookups :
    idx_genomes_gen_id_fitness ∈ schemaIndexes ∧
    idx_genomes_gen_id_fitness.table = simulation_genomes.name ∧
    idx_genomes_gen_id_fitness.columns =
      [("generation_id", SortDir.asc), ("fitness_score", SortDir.desc)] ∧
    "status" ∈ simulation_queue.columns ∧
    "genome_id" ∈ simulation_queue.columns ∧
    "generation_id" ∈ simulation_genomes.columns ∧
    "fitness_score" ∈ simulation_genomes.columns ∧
    "generation_id" ∉ simulation_queue.columns ∧
    schemaIndexes.filter (fun i => i.table = "simulation_queue") = [] := by
  decide

/-! ### Claim C8 -/

/-- C8: Generation and Genome records are never deleted.  The schema's
row-level-security policies grant the public role no `delete` on
`simulation_generations` or `simulation_genomes`, and every protocol step
keeps every existing Generation row and Genome row in the store (identified by
its id; statuses and fitness stats may be mutated in place). -/
theorem rows_never_deleted :
    (SqlCmd.cmdDelete ∉ allowedCmds "simulation_generations" ∧
     SqlCmd.cmdDelete ∉ allowedCmds "simulation_genomes") ∧
    ∀ s s', Step s s' →
      (∀ g ∈ s.generations, ∃ g' ∈ s'.generations, g'.id = g.id) ∧
      (∀ x ∈ s.genomes, ∃ x' ∈ s'.genomes, x'.id = x.id) := by
  refine ⟨⟨by decide, by decide⟩, ?_⟩
  intro s s' h
  cases h with
  | claim w now jobId s =>
    exact ⟨fun g hg => ⟨g, hg, rfl⟩, fun x hx => ⟨x, hx, rfl⟩⟩
  | report genomeId score s =>
    refine ⟨fun g hg => ⟨g, ?_, rfl⟩, acceptReport_genome_ids genomeId score s⟩
    rw [acceptReport_generations]; exact hg
  | complete now jobId s =>
    exact ⟨fun g hg => ⟨g, hg, rfl⟩, fun x hx => ⟨x, hx, rfl⟩⟩
  | evalFailed jobId s =>
    exact ⟨fun g hg => ⟨g, hg, rfl⟩, fun x hx => ⟨x, hx, rfl⟩⟩
  | reap now timeout budget s =>
    exact ⟨fun g hg => ⟨g, hg, rfl⟩, fun x hx => ⟨x, hx, rfl⟩⟩
  | advance K offspring avg best eliteBase jobBase s hready hviable =>
    constructor
    · intro g hg
      refine ⟨completeGeneration avg best g, ?_, completeGeneration_id avg best g⟩
      exact List.mem_append_left _ (List.mem_map_of_mem _ hg)
    · intro x hx
      exact ⟨x, List.mem_append_left _ hx, rfl⟩

/-- C8 witness: a concrete reap step, after which the initial generation row
is still present. -/
theorem rows_never_deleted_witness :
    Step (initStore 1 (fun _ => [])) (reapJobs 0 0 0 (initStore 1 (fun _ => []))) ∧
    ∀ g ∈ (initStore 1 (fun _ => [])).generations,
      ∃ g' ∈ (reapJobs 0 0 0 (initStore 1 (fun _ => []))).generations, g'.id = g.id :=
  ⟨Step.reap 0 0 0 _, (rows_never_deleted.2 _ _ (Step.reap 0 0 0 _)).1⟩

/-! ### Claim C4 -/

/-- C4: a stale `processing` Job under its attempt budget is returned to
`pending` with `assigned_to` and `started_at` cleared and its attempt counter
incremented; one whose budget is exhausted is marked `failed` instead; and a
`failed` Job is terminal — neither the reaper nor a claim ever touches it
again. -/
theorem reaper_reclaims_stale (now timeout budget : ℕ) (j : Job)
    (hp : j.status = JobStatus.processing) (hs : isStale now timeout j = true) :
    (j.attempts + 1 < budget →
      reapUpdate now timeout budget j =
        { j with status := JobStatus.pending
                 assigned_to := none
                 started_at := none
                 attempts := j.attempts + 1 }) ∧
    (budget ≤ j.attempts + 1 →
      reapUpdate now timeout budget j = { j with status := JobStatus.failed }) ∧
    (∀ k : Job, k.status = JobStatus.failed →
      reapUpdate now timeout budget k = k ∧
      ∀ w now2 jid, claimUpdate w now2 jid k = k) := by
  refine ⟨?_, ?_, ?_⟩
  · intro hb
    unfold reapUpdate
    rw [if_pos ⟨hp, hs⟩, if_pos hb]
  · intro hb
    unfold reapUpdate
    rw [if_pos ⟨hp, hs⟩, if_neg (by omega)]
  · intro k hk
    constructor
    · unfold reapUpdate
      rw [if_neg]
      intro hcon
      rw [hk] at hcon
      exact absurd hcon.1 (by decide)
    · intro w now2 jid
      unfold claimUpdate
      rw [if_neg]
      intro hcon
      rw [hk] at hcon
      exact absurd hcon.2 (by decide)

/-- C4 witness: a concrete stale job on its first attempt, with budget 3, is
reclaimed to `pending` with the counter at 1. -/
theorem reaper_reclaims_stale_witness :
    reapUpdate 100 10 3 ⟨0, 0, JobStatus.processing, some "w", some 0, none, 0⟩ =
      ⟨0, 0, JobStatus.pending, none, none, none, 1⟩ :=
  (reaper_reclaims_stale 100 10 3 _ rfl (by decide)).1 (by decide)

/-! ### Claim C2 -/

theorem find?_eq_of_nodup_ids {l : List Genome} {g : Genome} {gid : ℕ}
    (hnd : (l.map Genome.id).Nodup) (hg : g ∈ l) (hid : g.id = gid) :
    l.find? (fun x => decide (x.id = gid)) = some g := by
  induction l with
  | nil => cases hg
  | cons a t ih =>
    rw [List.map_cons, List.nodup_cons] at hnd
    rcases List.mem_cons.mp hg with hga | hgt
    · subst hga
      exact List.find?_cons_of_pos t (by simpa using hid)
    · have hne : ¬a.id = gid := by
        intro ha
        apply hnd.1
        rw [ha, ← hid]
        exact List.mem_map_of_mem Genome.id hgt
      rw [List.find?_cons_of_neg t (by simpa using hne)]
      exact ih hnd.2 hgt

/-- C2: fitness is write-once.  For a genome with no score yet, a report
writes the score (and leaves every other genome row in place); a repeated
report with the identical value is an accepted no-op that changes nothing; a
report with a different value is rejected as a conflict and the store is
unchanged. -/
theorem fitness_write_once (s : Store) (gid : ℕ) (score : ℚ) (g : Genome)
    (hnd : (s.genomes.map Genome.id).Nodup) (hg : g ∈ s.genomes)
    (hid : g.id = gid) :
    (g.fitness_score = none →
      (acceptReport gid score s).2 = ReportOutcome.written ∧
      (∃ g' ∈ (acceptReport gid score s).1.genomes,
        g'.id = gid ∧ g'.fitness_score = some score) ∧
      ∀ h ∈ s.genomes, h.id ≠ gid → h ∈ (acceptReport gid score s).1.genomes) ∧
    (g.fitness_score = some score →
      acceptReport gid score s = (s, ReportOutcome.duplicate)) ∧
    (∀ v, g.fitness_score = some v → v ≠ score →
      acceptReport gid score s = (s, ReportOutcome.conflict)) := by
  have hfind := find?_eq_of_nodup_ids hnd hg hid
  refine ⟨?_, ?_, ?_⟩
  · intro hnone
    simp only [acceptReport, hfind, hnone]
    refine ⟨trivial, ⟨setFitness gid score g, List.mem_map_of_mem _ hg, ?_, ?_⟩, ?_⟩
    · exact (setFitness_id gid score g).trans hid
    · unfold setFitness
      rw [if_pos ⟨hid, hnone⟩]
    · intro h hh hhid
      have hfix : setFitness gid score h = h := by
        unfold setFitness
        rw [if_neg (fun hc => hhid hc.1)]
      exact hfix ▸ List.mem_map_of_mem _ hh
  · intro hsame
    simp [acceptReport, hfind, hsame]
  · intro v hv hne
    simp only [acceptReport, hfind, hv]
    rw [if_neg hne]

/-- C2 witness: reporting the value already stored for a concrete genome is a
no-op accepted as a duplicate. -/
theorem fitness_write_once_witness :
    acceptReport 0 5
        ⟨[⟨0, GenStatus.active, none, none⟩], [⟨0, 0, [], some 5, false⟩], []⟩ =
      (⟨[⟨0, GenStatus.active, none, none⟩], [⟨0, 0, [], some 5, false⟩], []⟩,
       ReportOutcome.duplicate) :=
  (fitness_write_once _ 0 5 ⟨0, 0, [], some 5, false⟩ (by decide) (by decide)
    rfl).2.1 rfl

/-! ### Claim C1 -/

theorem claimJob_of_no_pending {s : Store} {jobId : ℕ} (w : String) (now : ℕ)
    (h : ∀ j ∈ s.jobs, ¬(j.id = jobId ∧ j.status = JobStatus.pending)) :
    claimJob w now jobId s = (s, false) := by
  unfold claimJob
  have hfix : ∀ j ∈ s.jobs, claimUpdate w now jobId j = j := by
    intro j hj
    unfold claimUpdate
    rw [if_neg (h j hj)]
  have hjobs : s.jobs.map (claimUpdate w now jobId) = s.jobs :=
    (List.map_congr_left (fun j hj => hfix j hj)).trans (List.map_id s.jobs)
  have hany :
      s.jobs.any (fun j => decide (j.id = jobId ∧ j.status = JobStatus.pending)) = false := by
    rw [List.any_eq_false]
    intro j hj
    simpa using h j hj
  rw [hjobs, hany]

theorem claimJob_clears_pending (w : String) (now jobId : ℕ) (s : Store) :
    ∀ j' ∈ (claimJob w now jobId s).1.jobs,
      ¬(j'.id = jobId ∧ j'.status = JobStatus.pending) := by
  intro j' hj'
  obtain ⟨j, hj, hupd⟩ := List.mem_map.mp hj'
  subst hupd
  unfold claimUpdate
  split
  · intro hcon
    simpa using hcon.2
  · next hcond => exact hcond

theorem claimAll_of_no_pending {s : Store} {jobId : ℕ} (now : ℕ) (ws : List String)
    (h : ∀ j ∈ s.jobs, ¬(j.id = jobId ∧ j.status = JobStatus.pending)) :
    claimAll now jobId ws s = (s, 0) := by
  induction ws with
  | nil => rfl
  | cons w ws ih =>
    simp [claimAll, claimJob_of_no_pending w now h, ih]

/-- C1: claim exclusivity.  When N workers race to claim one pending Job with
atomic conditional updates (any concurrent execution being some sequential
order of the atomic attempts), exactly one attempt succeeds, and the job ends
up `processing`, assigned to one of the racing workers with `started_at` set
by the same update. -/
theorem claim_exclusive (s : Store) (jobId now : ℕ) (ws : List String)
    (hw : ws ≠ [])
    (hpend : ∃ j ∈ s.jobs, j.id = jobId ∧ j.status = JobStatus.pending) :
    (claimAll now jobId ws s).2 = 1 ∧
    ∃ w ∈ ws, ∃ j' ∈ (claimAll now jobId ws s).1.jobs,
      j'.id = jobId ∧ j'.status = JobStatus.processing ∧
      j'.assigned_to = some w ∧ j'.started_at = some now := by
  cases ws with
  | nil => exact absurd rfl hw
  | cons w ws =>
    obtain ⟨j, hj, hjid, hjst⟩ := hpend
    have hsucc : (claimJob w now jobId s).2 = true := by
      unfold claimJob
      rw [List.any_eq_true]
      exact ⟨j, hj, by simp [hjid, hjst]⟩
    have hrest :
        claimAll now jobId ws (claimJob w now jobId s).1 =
          ((claimJob w now jobId s).1, 0) :=
      claimAll_of_no_pending now ws (claimJob_clears_pending w now jobId s)
    have hstep :
        claimAll now jobId (w :: ws) s =
          ((claimJob w now jobId s).1, 1) := by
      simp [claimAll, hsucc, hrest]
    rw [hstep]
    refine ⟨rfl, w, List.mem_cons_self w ws, claimUpdate w now jobId j, ?_, ?_⟩
    · exact List.mem_map_of_mem _ hj
    · unfold claimUpdate
      rw [if_pos ⟨hjid, hjst⟩]
      exact ⟨hjid, rfl, rfl, rfl⟩

/-- C1 witness: two workers racing for the single pending job of a freshly
initialised store; exactly one attempt succeeds. -/
theorem claim_exclusive_witness :
    (["w1", "w2"] ≠ ([] : List String)) ∧
    (claimAll 5 0 ["w1", "w2"] (initStore 1 (fun _ => []))).2 = 1 :=
  ⟨by decide,
   (claim_exclusive (initStore 1 (fun _ => [])) 0 5 ["w1", "w2"] (by decide)
     ⟨⟨0, 0, JobStatus.pending, none, none, none, 0⟩, by decide, rfl, rfl⟩).1⟩

/-! ### Claim C9 -/

/-- C9: the hypothesis widget's guard and verdict.  With fewer than 10
cooperative or fewer than 10 aggressive low-density runs, the computation
stops at the insufficient-data status (confirmed and pValue both null, the
insufficient-data message) — no statistic is computed; and a CONFIRMED
verdict (confirmed = true) is produced only when the p-value is below 0.05
and the cooperative mean strictly exceeds the aggressive mean.  The statement
holds for every choice of the abstract square-root and normal-CDF routines. -/
theorem hypothesis_guard_and_verdict (normalCDF sqrtQ : ℚ → ℚ)
    (runs : List SimulationBatchRun) :
    ((coopTicks runs).length < 10 ∨ (aggTicks runs).length < 10 →
      calculateHypothesis normalCDF sqrtQ runs = insufficientStatus) ∧
    ((calculateHypothesis normalCDF sqrtQ runs).confirmed = some true →
      pValueOf normalCDF sqrtQ runs < 5 / 100 ∧
      mean (coopTicks runs) > mean (aggTicks runs)) := by
  constructor
  · intro h
    unfold calculateHypothesis
    rw [if_pos h]
  · intro h
    by_cases hg : (coopTicks runs).length < 10 ∨ (aggTicks runs).length < 10
    · unfold calculateHypothesis at h
      rw [if_pos hg] at h
      exact absurd h (by simp [insufficientStatus])
    · unfold calculateHypothesis at h
      rw [if_neg hg] at h
      simpa using h

/-- C9 witness: the empty run set trips the guard and yields the
insufficient-data status. -/
theorem hypothesis_guard_witness :
    ((coopTicks []).length < 10 ∨ (aggTicks []).length < 10) ∧
    calculateHypothesis (fun _ => 0) (fun _ => 0) [] = insufficientStatus :=
  ⟨Or.inl (by decide),
   (hypothesis_guard_and_verdict (fun _ => 0) (fun _ => 0) []).1 (Or.inl (by decide))⟩

/-! ### Claim C10 -/

/-- C10: in the survival chart aggregation, every produced row comes from a
density group, a strategy with no runs in the group is mapped to `none`, and
a numeric average is produced only from a non-empty list — its denominator
(the group's length) is non-zero, so no division by zero occurs. -/
theorem avgOrNone_spec (xs : List ℤ) :
    (avgOrNone xs = none ↔ xs = []) ∧
    ∀ q, avgOrNone xs = some q →
      (xs.length : ℚ) ≠ 0 ∧ q = (xs.map (fun x => (x : ℚ))).sum / (xs.length : ℚ) := by
  unfold avgOrNone
  split
  · next hlen =>
    constructor
    · simpa using List.length_pos.mp hlen
    · intro q hq
      refine ⟨by exact_mod_cast Nat.pos_iff_ne_zero.mp hlen, ?_⟩
      exact (Option.some.injEq _ _ ▸ hq).symm
  · next hlen =>
    constructor
    · simp [List.length_eq_zero.mp (Nat.eq_zero_of_not_pos hlen)]
    · intro q hq
      exact absurd hq (by simp)

theorem survival_chart_no_div_by_zero (runs : List SimulationBatchRun)
    (c : ChartData) (hc : c ∈ survivalChartData runs) :
    ∃ g ∈ groupRuns runs, c = toChart g ∧
      (c.cooperative = none ↔ g.2.1 = []) ∧
      (c.aggressive = none ↔ g.2.2 = []) ∧
      (∀ q, c.cooperative = some q →
        (g.2.1.length : ℚ) ≠ 0 ∧
        q = (g.2.1.map (fun x => (x : ℚ))).sum / (g.2.1.length : ℚ)) ∧
      (∀ q, c.aggressive = some q →
        (g.2.2.length : ℚ) ≠ 0 ∧
        q = (g.2.2.map (fun x => (x : ℚ))).sum / (g.2.2.length : ℚ)) := by
  obtain ⟨g, hgs, hgc⟩ := List.mem_map.mp hc
  have hgr : g ∈ groupRuns runs := List.mem_mergeSort.mp hgs
  subst hgc
  have hcoop : (toChart g).cooperative = avgOrNone g.2.1 := rfl
  have hagg : (toChart g).aggressive = avgOrNone g.2.2 := rfl
  rw [hcoop, hagg]
  exact ⟨g, hgr, rfl, (avgOrNone_spec g.2.1).1, (avgOrNone_spec g.2.2).1,
    (avgOrNone_spec g.2.1).2, (avgOrNone_spec g.2.2).2⟩

theorem survival_chart_witness_mem :
    (⟨10, some 100, none⟩ : ChartData) ∈
      survivalChartData [⟨"m1", "Cooperative", 1 / 10, 100⟩] := by
  have h1 : strIncludes "Cooperative" "Cooperative" = true := by decide
  simp [survivalChartData, groupRuns, insertRun, pushRun, h1, toChart, avgOrNone]
  norm_num

/-- C10 witness: a single cooperative run at density 0.10 yields one chart
row with the cooperative average set and the aggressive side null. -/
theorem survival_chart_witness :
    (⟨10, some 100, none⟩ : ChartData) ∈
      survivalChartData [⟨"m1", "Cooperative", 1 / 10, 100⟩] ∧
    ∃ g ∈ groupRuns [⟨"m1", "Cooperative", 1 / 10, 100⟩],
      (⟨10, some 100, none⟩ : ChartData) = toChart g ∧
      (((⟨10, some 100, none⟩ : ChartData)).cooperative = none ↔ g.2.1 = []) ∧
      (((⟨10, some 100, none⟩ : ChartData)).aggressive = none ↔ g.2.2 = []) ∧
      (∀ q, (⟨10, some 100, none⟩ : ChartData).cooperative = some q →
        (g.2.1.length : ℚ) ≠ 0 ∧
        q = (g.2.1.map (fun x => (x : ℚ))).sum / (g.2.1.length : ℚ)) ∧
      (∀ q, (⟨10, some 100, none⟩ : ChartData).aggressive = some q →
        (g.2.2.length : ℚ) ≠ 0 ∧
        q = (g.2.2.map (fun x => (x : ℚ))).sum / (g.2.2.length : ℚ)) :=
  ⟨survival_chart_witness_mem,
   survival_chart_no_div_by_zero _ _ survival_chart_witness_mem⟩

/-! ### Claims C3 and C5: the generation frontier invariant -/

theorem goodGens_init (pop : ℕ) (w : ℕ → List ℚ) :
    GoodGens (initStore pop w).generations :=
  ⟨0, rfl⟩

theorem goodGens_length {gens : List Generation} {n : ℕ}
    (htr : genTrace gens =
      (List.range n).map (fun i => (i, GenStatus.completed)) ++ [(n, GenStatus.active)]) :
    gens.length = n + 1 := by
  have hl := congrArg List.length htr
  simpa [genTrace] using hl

theorem goodGens_active_id {gens : List Generation} {n : ℕ}
    (htr : genTrace gens =
      (List.range n).map (fun i => (i, GenStatus.completed)) ++ [(n, GenStatus.active)]) :
    ∀ g ∈ gens, g.status = GenStatus.active → g.id = n := by
  intro g hg hst
  have hma : (g.id, g.status) ∈ genTrace gens := List.mem_map_of_mem _ hg
  rw [htr] at hma
  rcases List.mem_append.mp hma with hml | hmr
  · obtain ⟨i, _, hpair⟩ := List.mem_map.mp hml
    rw [Prod.mk.injEq, hst] at hpair
    exact absurd hpair.2 (by decide)
  · have hpair := List.mem_singleton.mp hmr
    rw [Prod.mk.injEq] at hpair
    exact hpair.1

theorem step_goodGens {s s' : Store} (h : Step s s')
    (hg : GoodGens s.generations) : GoodGens s'.generations := by
  cases h with
  | claim w now jobId s => exact hg
  | report genomeId score s =>
    rw [show (acceptReport genomeId score s).1.generations = s.generations from
      acceptReport_generations genomeId score s]
    exact hg
  | complete now jobId s => exact hg
  | evalFailed jobId s => exact hg
  | reap now timeout budget s => exact hg
  | advance K offspring avg best eliteBase jobBase s hready hviable =>
    obtain ⟨n, htr⟩ := hg
    have hlen : s.generations.length = n + 1 := goodGens_length htr
    refine ⟨n + 1, ?_⟩
    show genTrace (s.generations.map (completeGeneration avg best) ++
        [⟨s.generations.length, GenStatus.active, none, none⟩]) = _
    rw [genTrace, List.map_append]
    have hmap : (s.generations.map (completeGeneration avg best)).map
        (fun g => (g.id, g.status)) =
        (List.range n).map (fun i => (i, GenStatus.completed)) ++
          [(n, GenStatus.completed)] := by
      rw [List.map_map]
      have hcg : ∀ g ∈ s.generations,
          ((fun g => (g.id, g.status)) ∘ completeGeneration avg best) g =
            ((fun p => (p.1, GenStatus.completed)) ∘ (fun g => (g.id, g.status))) g := by
        intro g _
        show ((completeGeneration avg best g).id,
            (completeGeneration avg best g).status) = (g.id, GenStatus.completed)
        unfold completeGeneration
        split
        · rfl
        · next hne =>
          cases hst : g.status with
          | active => exact absurd hst hne
          | completed => rfl
      rw [List.map_congr_left hcg, ← List.map_map, ← genTrace, htr, List.map_append,
        List.map_map]
      simp
    rw [hmap, hlen, List.range_succ, List.map_append]
    simp

theorem reachable_goodGens {pop : ℕ} {w : ℕ → List ℚ} {s : Store}
    (h : Reachable pop w s) : GoodGens s.generations := by
  induction h with
  | refl => exact goodGens_init pop w
  | tail hab hbc ih => exact step_goodGens hbc ih

/-- C3: in every reachable store state there is exactly one `active`
generation, and every generation with a lower id than an active one is
`completed`; this holds after `--init` and is preserved by every Controller,
Worker and Reaper step. -/
theorem one_active_generation (pop : ℕ) (w : ℕ → List ℚ) (s : Store)
    (h : Reachable pop w s) :
    s.generations.countP (fun g => decide (g.status = GenStatus.active)) = 1 ∧
    ∀ g ∈ s.generations, ∀ a ∈ s.generations, a.status = GenStatus.active →
      g.id < a.id → g.status = GenStatus.completed := by
  obtain ⟨n, htr⟩ := reachable_goodGens h
  constructor
  · have hc : (genTrace s.generations).countP (fun p => decide (p.2 = GenStatus.active)) =
        s.generations.countP (fun g => decide (g.status = GenStatus.active)) := by
      rw [genTrace, List.countP_map]
      rfl
    rw [← hc, htr, List.countP_append]
    have h0 : ((List.range n).map (fun i => (i, GenStatus.completed))).countP
        (fun p => decide (p.2 = GenStatus.active)) = 0 := by
      rw [List.countP_eq_zero]
      intro p hp
      obtain ⟨i, _, hpair⟩ := List.mem_map.mp hp
      rw [← hpair]
      simp
    rw [h0]
    rfl
  · intro g hg a ha hast hlt
    cases hst : g.status with
    | completed => rfl
    | active =>
      have hgn := goodGens_active_id htr g hg hst
      have han := goodGens_active_id htr a ha hast
      rw [hgn, han] at hlt
      exact absurd hlt (lt_irrefl n)

/-- C3 witness: the freshly initialised store has exactly one active
generation. -/
theorem one_active_witness :
    (initStore 3 (fun _ => [])).generations.countP
      (fun g => decide (g.status = GenStatus.active)) = 1 :=
  (one_active_generation 3 (fun _ => []) _ Relation.ReflTransGen.refl).1

/-- C5: generation ids are the serial sequence 0, 1, 2, …: `--init` creates
exactly Generation 0 (active); in every reachable state the ids are strictly
increasing starting at 0; and the advance loop creates the next generation
with id one above the active generation's id. -/
theorem generation_ids_serial (pop : ℕ) (w : ℕ → List ℚ) :
    (initStore pop w).generations.map Generation.id = [0] ∧
    (initStore pop w).generations.map Generation.status = [GenStatus.active] ∧
    ∀ s, Reachable pop w s →
      (s.generations.map Generation.id).Pairwise (· < ·) ∧
      (s.generations.map Generation.id).head? = some 0 ∧
      ∀ K offspring avg best eliteBase jobBase, ∀ a ∈ s.generations,
        a.status = GenStatus.active →
        (advanceStore K offspring avg best eliteBase jobBase s).generations.map
            Generation.id =
          s.generations.map Generation.id ++ [a.id + 1] := by
  refine ⟨rfl, rfl, ?_⟩
  intro s hs
  obtain ⟨n, htr⟩ := reachable_goodGens hs
  have hids : s.generations.map Generation.id = List.range (n + 1) := by
    have h1 : s.generations.map Generation.id = (genTrace s.generations).map Prod.fst := by
      rw [genTrace, List.map_map]
      rfl
    rw [h1, htr, List.map_append, List.map_map, List.range_succ]
    congr 1
    rw [show (Prod.fst ∘ fun i => (i, GenStatus.completed)) = id from rfl, List.map_id]
  refine ⟨?_, ?_, ?_⟩
  · rw [hids]
    exact List.pairwise_lt_range (n + 1)
  · rw [hids, List.range_succ_eq_map]
    rfl
  · intro K offspring avg best eliteBase jobBase a ha hast
    have han : a.id = n := goodGens_active_id htr a ha hast
    have hlen : s.generations.length = n + 1 := goodGens_length htr
    show (s.generations.map (completeGeneration avg best) ++
        [(⟨s.generations.length, GenStatus.active, none, none⟩ : Generation)]).map
        Generation.id = _
    rw [List.map_append, List.map_map]
    have hcomp : s.generations.map (Generation.id ∘ completeGeneration avg best) =
        s.generations.map Generation.id :=
      List.map_congr_left (fun g _ => completeGeneration_id avg best g)
    rw [hcomp, hlen, han]
    rfl

/-- C5 witness: the initial store has generation ids `[0]`, strictly
increasing. -/
theorem generation_ids_serial_witness :
    (initStore 2 (fun _ => [])).generations.map Generation.id = [0] ∧
    ((initStore 2 (fun _ => [])).generations.map Generation.id).Pairwise (· < ·) :=
  ⟨(generation_ids_serial 2 (fun _ => [])).1,
   ((generation_ids_serial 2 (fun _ => [])).2.2 _ Relation.ReflTransGen.refl).1⟩

/-! ### Claim C6: elite selection -/

theorem eliteLE_trans : ∀ a b c : Genome × ℚ, eliteLE a b → eliteLE b c → eliteLE a c := by
  intro a b c hab hbc
  simp only [eliteLE, decide_eq_true_eq] at hab hbc ⊢
  rcases hab with h1 | ⟨h1e, h1i⟩ <;> rcases hbc with h2 | ⟨h2e, h2i⟩
  · exact Or.inl (lt_trans h2 h1)
  · exact Or.inl (h2e ▸ h1)
  · exact Or.inl (by rw [h1e]; exact h2)
  · exact Or.inr ⟨h1e.trans h2e, Nat.le_trans h1i h2i⟩

theorem eliteLE_total : ∀ a b : Genome × ℚ, eliteLE a b || eliteLE b a := by
  intro a b
  simp only [eliteLE, Bool.or_eq_true, decide_eq_true_eq]
  rcases lt_trichotomy a.2 b.2 with h | h | h
  · exact Or.inr (Or.inl h)
  · rcases Nat.le_total a.1.id b.1.id with hi | hi
    · exact Or.inl (Or.inr ⟨h, hi⟩)
    · exact Or.inr (Or.inr ⟨h.symm, hi⟩)
  · exact Or.inl (Or.inl h)

theorem sortedPerm_eq {α : Type} {r : α → α → Bool} :
    ∀ {l₁ l₂ : List α}, l₁.Perm l₂ →
      l₁.Pairwise (fun a b => r a b = true) →
      l₂.Pairwise (fun a b => r a b = true) →
      (∀ a ∈ l₁, ∀ b ∈ l₁, r a b = true → r b a = true → a = b) →
      l₁ = l₂ := by
  intro l₁
  induction l₁ with
  | nil =>
    intro l₂ hp _ _ _
    exact hp.nil_eq
  | cons a t ih =>
    intro l₂ hp h₁ h₂ hanti
    cases l₂ with
    | nil =>
      have := hp.eq_nil
      simp at this
    | cons b t₂ =>
      by_cases hab : a = b
      · subst hab
        have htails : t = t₂ :=
          ih hp.cons_inv (List.pairwise_cons.mp h₁).2 (List.pairwise_cons.mp h₂).2
            (fun x hx y hy => hanti x (List.mem_cons_of_mem a hx) y
              (List.mem_cons_of_mem a hy))
        rw [htails]
      · have hain : a ∈ b :: t₂ := hp.mem_iff.mp (List.mem_cons_self a t)
        have hat₂ : a ∈ t₂ := by
          rcases List.mem_cons.mp hain with h | h
          · exact absurd h hab
          · exact h
        have hbin : b ∈ a :: t := hp.mem_iff.mpr (List.mem_cons_self b t₂)
        have hbt : b ∈ t := by
          rcases List.mem_cons.mp hbin with h | h
          · exact absurd h.symm hab
          · exact h
        have hrab : r a b = true := (List.pairwise_cons.mp h₁).1 b hbt
        have hrba : r b a = true := (List.pairwise_cons.mp h₂).1 a hat₂
        exact absurd
          (hanti a (List.mem_cons_self a t) b (List.mem_cons_of_mem a hbt) hrab hrba) hab

/-- C6: the elite set is exactly the top-K of the ranking by fitness
descending with ties broken by ascending genome id, and the selection is
deterministic: it only depends on the set of scored genomes, not on the order
the store returns them in.  Concretely: every elite comes from the input; the
elite count is `min K` (number of scored genomes); every non-selected genome
is strictly dominated by every elite (lower score, or an equal score and a
strictly larger id); and permuting the input leaves the selection unchanged. -/
theorem elite_selection (K : ℕ) (gs : List (Genome × ℚ))
    (hnd : (gs.map (fun p => p.1.id)).Nodup) :
    (∀ e ∈ selectElites K gs, e ∈ gs) ∧
    (selectElites K gs).length = min K gs.length ∧
    (∀ e ∈ selectElites K gs, ∀ g ∈ gs, g ∉ selectElites K gs →
      g.2 < e.2 ∨ (g.2 = e.2 ∧ e.1.id < g.1.id)) ∧
    (∀ gs', gs.Perm gs' → selectElites K gs = selectElites K gs') := by
  have hsor : (gs.mergeSort eliteLE).Pairwise (fun a b => eliteLE a b = true) :=
    List.sorted_mergeSort eliteLE_trans eliteLE_total gs
  refine ⟨?_, ?_, ?_, ?_⟩
  · intro e he
    exact List.mem_mergeSort.mp (List.mem_of_mem_take he)
  · simp [selectElites, rankGenomes]
  · intro e he g hgmem hgnot
    have hegs : e ∈ gs := List.mem_mergeSort.mp (List.mem_of_mem_take he)
    have heg : eliteLE e g = true := by
      have hpair : ((gs.mergeSort eliteLE).take K ++ (gs.mergeSort eliteLE).drop K).Pairwise
          (fun a b => eliteLE a b = true) := by
        rw [List.take_append_drop]
        exact hsor
      have hgdrop : g ∈ (gs.mergeSort eliteLE).drop K := by
        have hgsort : g ∈ gs.mergeSort eliteLE := List.mem_mergeSort.mpr hgmem
        rw [← List.take_append_drop K (gs.mergeSort eliteLE)] at hgsort
        rcases List.mem_append.mp hgsort with h | h
        · exact absurd h hgnot
        · exact h
      exact (List.pairwise_append.mp hpair).2.2 e he g hgdrop
    simp only [eliteLE, decide_eq_true_eq] at heg
    rcases heg with h | ⟨he2, hid⟩
    · exact Or.inl h
    · refine Or.inr ⟨he2.symm, ?_⟩
      have hne : e ≠ g := fun hcon => hgnot (hcon ▸ he)
      have hidne : e.1.id ≠ g.1.id := fun hcon =>
        hne (List.inj_on_of_nodup_map hnd hegs hgmem hcon)
      exact Nat.lt_of_le_of_ne hid hidne
  · intro gs' hperm
    have hsor' : (gs'.mergeSort eliteLE).Pairwise (fun a b => eliteLE a b = true) :=
      List.sorted_mergeSort eliteLE_trans eliteLE_total gs'
    have hsort_eq : gs.mergeSort eliteLE = gs'.mergeSort eliteLE := by
      apply sortedPerm_eq
        ((List.mergeSort_perm gs eliteLE).trans
          (hperm.trans (List.mergeSort_perm gs' eliteLE).symm))
        hsor hsor'
      intro x hx y hy hxy hyx
      have hxgs : x ∈ gs := List.mem_mergeSort.mp hx
      have hygs : y ∈ gs := List.mem_mergeSort.mp hy
      simp only [eliteLE, decide_eq_true_eq] at hxy hyx
      rcases hxy with h1 | ⟨h1e, h1i⟩ <;> rcases hyx with h2 | ⟨h2e, h2i⟩
      · exact absurd h2 (lt_asymm h1)
      · exact absurd (h2e ▸ h1) (lt_irrefl _)
      · exact absurd (h1e ▸ h2) (lt_irrefl _)
      · exact List.inj_on_of_nodup_map hnd hxgs hygs (Nat.le_antisymm h1i h2i)
    unfold selectElites rankGenomes
    rw [hsort_eq]

/-- Scored genome list of the spec's §8 scenario: ids 0,1,2,3 (A,B,C,D) with
scores 10, 7, 7, 2 — genomes 1 and 2 tied. -/
def scenarioGenomes : List (Genome × ℚ) :=
  [(⟨0, 0, [], some 10, false⟩, 10), (⟨1, 0, [], some 7, false⟩, 7),
   (⟨2, 0, [], some 7, false⟩, 7), (⟨3, 0, [], some 2, false⟩, 2)]

unseal List.merge List.mergeSort in
/-- Spec §8 scenario check: with K = 1, the elite set is exactly genome 0,
and genome 1 wins the 1/2 tie at K = 2 by its lower id. -/
theorem elite_scenario :
    selectElites 1 scenarioGenomes = [(⟨0, 0, [], some 10, false⟩, 10)] ∧
    selectElites 2 scenarioGenomes =
      [(⟨0, 0, [], some 10, false⟩, 10), (⟨1, 0, [], some 7, false⟩, 7)] := by
  constructor <;> rfl

/-- C6 witness: the scenario's ids are distinct and the elite count for K = 1
is `min 1 4 = 1`. -/
theorem elite_selection_witness :
    (scenarioGenomes.map (fun p => p.1.id)).Nodup ∧
    (selectElites 1 scenarioGenomes).length = min 1 scenarioGenomes.length :=
  ⟨by decide, (elite_selection 1 scenarioGenomes (by decide)).2.1⟩

end TragedyAI
